import Mathlib

/-!
Shallow embedding of the PE reverse-engineering scanner (`re_scanner.py`):
container parsing, address translation, cross-reference scanning,
function-boundary recovery, wildcarded signature generation, struct-offset
extraction, vtable scanning and global-pointer location, together with
theorems settling the specification claims.

Byte buffers are modelled as `List Nat` (each element a byte value 0..255);
out-of-range indexing uses `List.getD _ _ 0`, which is only consulted under
the same bounds guards the source performs.  Python loops are rendered as
fuel-indexed structural recursions (the fuel is always a provably sufficient
iteration bound), so all definitions compute by kernel reduction.
-/

/-- Little-endian 16-bit read with the bounds check of `struct.unpack_from`
(`struct.error` on a short buffer is modelled as `none`). -/
def u16at (d : List Nat) (off : Nat) : Option Nat :=
  if off + 2 ≤ d.length then some (d.getD off 0 + 256 * d.getD (off + 1) 0) else none

/-- Little-endian 32-bit read with the bounds check of `struct.unpack_from`. -/
def u32at (d : List Nat) (off : Nat) : Option Nat :=
  if off + 4 ≤ d.length then
    some (d.getD off 0 + 256 * d.getD (off + 1) 0 + 65536 * d.getD (off + 2) 0 +
      16777216 * d.getD (off + 3) 0)
  else none

/-- Little-endian 64-bit read with the bounds check of `struct.unpack_from`. -/
def u64at (d : List Nat) (off : Nat) : Option Nat :=
  if off + 8 ≤ d.length then
    some (d.getD off 0 + 256 * d.getD (off + 1) 0 + 65536 * d.getD (off + 2) 0 +
      16777216 * d.getD (off + 3) 0 + 4294967296 * d.getD (off + 4) 0 +
      1099511627776 * d.getD (off + 5) 0 + 281474976710656 * d.getD (off + 6) 0 +
      72057594037927936 * d.getD (off + 7) 0)
  else none

/-- Unguarded little-endian 64-bit read (used where the source has already
checked the bound, so `unpack_from` cannot fail). -/
def u64get (d : List Nat) (off : Nat) : Nat :=
  d.getD off 0 + 256 * d.getD (off + 1) 0 + 65536 * d.getD (off + 2) 0 +
    16777216 * d.getD (off + 3) 0 + 4294967296 * d.getD (off + 4) 0 +
    1099511627776 * d.getD (off + 5) 0 + 281474976710656 * d.getD (off + 6) 0 +
    72057594037927936 * d.getD (off + 7) 0

/-- Signed little-endian 32-bit read (`struct.unpack_from` format `<i`),
unguarded: used where the source has already checked the bound. -/
def i32at (d : List Nat) (off : Nat) : Int :=
  let u := d.getD off 0 + 256 * d.getD (off + 1) 0 + 65536 * d.getD (off + 2) 0 +
    16777216 * d.getD (off + 3) 0
  if u < 2147483648 then (u : Int) else (u : Int) - 4294967296

/-- Little-endian encoding of a 16-bit value (test-image construction). -/
def u16le (v : Nat) : List Nat := [v % 256, v / 256 % 256]

/-- Little-endian encoding of a 32-bit value (test-image construction). -/
def u32le (v : Nat) : List Nat :=
  [v % 256, v / 256 % 256, v / 65536 % 256, v / 16777216 % 256]

/-- Little-endian encoding of a 64-bit value, as `struct.pack` with format `<Q`. -/
def u64le (v : Nat) : List Nat :=
  u32le (v % 4294967296) ++ u32le (v / 4294967296 % 4294967296)

/-- A run of zero bytes. -/
def zeros (n : Nat) : List Nat := List.replicate n 0

/-- One section-table record as the parser stores it: the decoded name plus the
four numeric fields it consumes. -/
structure PESection where
  name : List Nat
  vsize : Nat
  rva : Nat
  raw_size : Nat
  raw_offset : Nat
deriving DecidableEq

/-- The parser state: the immutable byte buffer, the load base, the section
list, and the cached `.text` / `.rdata` / `.data` triples, exactly the fields
`PEParser.__init__` sets up. -/
structure PEState where
  data : List Nat
  base : Nat
  sections : List PESection
  text_start : Nat
  text_size : Nat
  text_rva : Nat
  rdata_start : Nat
  rdata_size : Nat
  rdata_rva : Nat
  data_start : Nat
  data_size : Nat
  data_rva : Nat
deriving DecidableEq

/-- Parse failures: the two `ValueError`s of `_parse_pe` plus the
`struct.error` raised by `struct.unpack_from` on a short buffer. -/
inductive PErr where
  | notMZ
  | badPESig
  | shortRead
deriving DecidableEq

/-- Section name decoding: `bytes.rstrip(b'\x00').decode('ascii', errors='ignore')`,
kept as the byte list (ASCII decoding with ignored errors keeps exactly the
bytes below 128, so name comparison agrees with the Python string comparison). -/
def asciiName (bs : List Nat) : List Nat :=
  ((bs.reverse.dropWhile (fun b => b = 0)).reverse).filter (fun b => b < 128)

/-- The bytes of the name `.text`. -/
def textName : List Nat := [46, 116, 101, 120, 116]

/-- The bytes of the name `.rdata`. -/
def rdataName : List Nat := [46, 114, 100, 97, 116, 97]

/-- The bytes of the name `.data`. -/
def dataName : List Nat := [46, 100, 97, 116, 97]

/-- One iteration of the section loop of `_parse_pe`: read the 40-byte record
at `off` (the name slice cannot fail; the four `unpack_from` reads can). -/
def parseSection (d : List Nat) (off : Nat) : Option PESection :=
  match u32at d (off + 8), u32at d (off + 12), u32at d (off + 16), u32at d (off + 20) with
  | some vsize, some rva, some rawsz, some rawoff =>
      some { name := asciiName ((d.drop off).take 8), vsize := vsize, rva := rva,
             raw_size := rawsz, raw_offset := rawoff }
  | _, _, _, _ => none

/-- The section loop of `_parse_pe`, reading `n` records starting at
`section_offset` (a failing field read aborts the whole parse, as in Python). -/
def parseSections (d : List Nat) (soff : Nat) (n : Nat) : Option (List PESection) :=
  (List.range n).foldl
    (fun acc i => acc.bind (fun l => (parseSection d (soff + i * 40)).map (fun s => l ++ [s])))
    (some [])

/-- The per-section bookkeeping of `_parse_pe`: append to `sections` and, when
the name is `.text` / `.rdata` / `.data`, overwrite the cached triple. -/
def applySection (st : PEState) (s : PESection) : PEState :=
  let st1 := { st with sections := st.sections ++ [s] }
  if s.name = textName then
    { st1 with text_start := s.raw_offset, text_size := s.raw_size, text_rva := s.rva }
  else if s.name = rdataName then
    { st1 with rdata_start := s.raw_offset, rdata_size := s.raw_size, rdata_rva := s.rva }
  else if s.name = dataName then
    { st1 with data_start := s.raw_offset, data_size := s.raw_size, data_rva := s.rva }
  else st1

/-- `PEParser._parse_pe` (together with the `__init__` defaults): check the
`MZ` signature, locate and check the `PE\x00\x00` signature, read the
optional-header magic (reading the image base from the header only when the
magic is the 64-bit value `0x20b`, otherwise keeping the default
`0x140000000`), then read the section table. -/
def parsePE (d : List Nat) : Except PErr PEState :=
  if d.take 2 ≠ [77, 90] then .error .notMZ
  else
    match u32at d 60 with
    | none => .error .shortRead
    | some e_lfanew =>
      if (d.drop e_lfanew).take 4 ≠ [80, 69, 0, 0] then .error .badPESig
      else
        let coff := e_lfanew + 4
        match u16at d (coff + 2), u16at d (coff + 16) with
        | some num_sections, some ohs =>
          let opt := coff + 20
          match u16at d opt with
          | none => .error .shortRead
          | some magic =>
            let baseR : Except PErr Nat :=
              if magic = 523 then
                match u64at d (opt + 24) with
                | none => .error .shortRead
                | some b => .ok b
              else .ok 0x140000000
            match baseR with
            | .error e => .error e
            | .ok base =>
              match parseSections d (opt + ohs) num_sections with
              | none => .error .shortRead
              | some secs =>
                .ok (secs.foldl applySection
                  { data := d, base := base, sections := [],
                    text_start := 0, text_size := 0, text_rva := 0,
                    rdata_start := 0, rdata_size := 0, rdata_rva := 0,
                    data_start := 0, data_size := 0, data_rva := 0 })
        | _, _ => .error .shortRead

/-- Whether `rva` lies in the section's RVA range, as tested by
`rva_to_offset` (the range extent is `raw_size`, not `vsize`). -/
def inRva (s : PESection) (rva : Nat) : Prop :=
  s.rva ≤ rva ∧ rva < s.rva + s.raw_size

instance (s : PESection) (rva : Nat) : Decidable (inRva s rva) := by
  unfold inRva; infer_instance

/-- Whether `off` lies in the section's file range, as tested by
`offset_to_rva`. -/
def inFile (s : PESection) (off : Nat) : Prop :=
  s.raw_offset ≤ off ∧ off < s.raw_offset + s.raw_size

instance (s : PESection) (off : Nat) : Decidable (inFile s off) := by
  unfold inFile; infer_instance

/-- `PEParser.rva_to_offset`: linear search for the first section whose RVA
range contains `rva`. -/
def rva_to_offset (pe : PEState) (rva : Nat) : Option Nat :=
  (pe.sections.find? (fun s => decide (inRva s rva))).map
    (fun s => rva - s.rva + s.raw_offset)

/-- `PEParser.offset_to_rva`: linear search for the first section whose file
range contains `offset`. -/
def offset_to_rva (pe : PEState) (off : Nat) : Option Nat :=
  (pe.sections.find? (fun s => decide (inFile s off))).map
    (fun s => off - s.raw_offset + s.rva)

/-- The second scanned byte in `find_string_xrefs`:
`b1 = text_data[i + 1] if i + 1 < text_end else 0` (note the source compares
against `text_end`, not the region length). -/
def xb1 (td : List Nat) (textEnd i : Nat) : Nat :=
  if i + 1 < textEnd then td.getD (i + 1) 0 else 0

/-- Branch 1 of `find_string_xrefs`: REX-prefixed LEA `48/4C 8D`, ModRM with
mod = 0 and rm = 5, 7-byte instruction, target `base + text_rva + i + 7 + disp32`. -/
def xbREXLEA (pe : PEState) (td : List Nat) (textEnd sva i : Nat) : Option Nat :=
  if (td.getD i 0 = 72 ∨ td.getD i 0 = 76) ∧ xb1 td textEnd i = 141 ∧ i + 6 < textEnd then
    let modrm := td.getD (i + 2) 0
    if modrm / 64 % 4 = 0 ∧ modrm % 8 = 5 then
      if ((pe.base + pe.text_rva + i : Nat) : Int) + 7 + i32at td (i + 3) = (sva : Int) then
        some (pe.text_start + i)
      else none
    else none
  else none

/-- Branch 2 of `find_string_xrefs`: non-prefixed LEA `8D`, 6-byte instruction
(the ModRM byte is `b1`), target `base + text_rva + i + 6 + disp32`. -/
def xbLEA (pe : PEState) (td : List Nat) (textEnd sva i : Nat) : Option Nat :=
  if td.getD i 0 = 141 ∧ i + 5 < textEnd then
    let modrm := xb1 td textEnd i
    if modrm / 64 % 4 = 0 ∧ modrm % 8 = 5 then
      if ((pe.base + pe.text_rva + i : Nat) : Int) + 6 + i32at td (i + 2) = (sva : Int) then
        some (pe.text_start + i)
      else none
    else none
  else none

/-- Branch 3 of `find_string_xrefs`: REX MOV load `48/4C 8B`, 7 bytes. -/
def xbMOVload (pe : PEState) (td : List Nat) (textEnd sva i : Nat) : Option Nat :=
  if (td.getD i 0 = 72 ∨ td.getD i 0 = 76) ∧ xb1 td textEnd i = 139 ∧ i + 6 < textEnd then
    let modrm := td.getD (i + 2) 0
    if modrm / 64 % 4 = 0 ∧ modrm % 8 = 5 then
      if ((pe.base + pe.text_rva + i : Nat) : Int) + 7 + i32at td (i + 3) = (sva : Int) then
        some (pe.text_start + i)
      else none
    else none
  else none

/-- Branch 4 of `find_string_xrefs`: REX MOV store `48/4C 89`, 7 bytes. -/
def xbMOVstore (pe : PEState) (td : List Nat) (textEnd sva i : Nat) : Option Nat :=
  if (td.getD i 0 = 72 ∨ td.getD i 0 = 76) ∧ xb1 td textEnd i = 137 ∧ i + 6 < textEnd then
    let modrm := td.getD (i + 2) 0
    if modrm / 64 % 4 = 0 ∧ modrm % 8 = 5 then
      if ((pe.base + pe.text_rva + i : Nat) : Int) + 7 + i32at td (i + 3) = (sva : Int) then
        some (pe.text_start + i)
      else none
    else none
  else none

/-- Branch 5 of `find_string_xrefs`: CMP `48 39/3B`, 7 bytes. -/
def xbCMP (pe : PEState) (td : List Nat) (textEnd sva i : Nat) : Option Nat :=
  if td.getD i 0 = 72 ∧ (xb1 td textEnd i = 57 ∨ xb1 td textEnd i = 59) ∧ i + 6 < textEnd then
    let modrm := td.getD (i + 2) 0
    if modrm / 64 % 4 = 0 ∧ modrm % 8 = 5 then
      if ((pe.base + pe.text_rva + i : Nat) : Int) + 7 + i32at td (i + 3) = (sva : Int) then
        some (pe.text_start + i)
      else none
    else none
  else none

/-- The appends performed by one iteration of the `find_string_xrefs` loop:
the five independent `if` statements in source order (each appends at most
once, so the iteration's contribution is the concatenation of five
at-most-singleton lists). -/
def xrefHitsAt (pe : PEState) (td : List Nat) (textEnd sva i : Nat) : List Nat :=
  (xbREXLEA pe td textEnd sva i).toList ++ (xbLEA pe td textEnd sva i).toList ++
    (xbMOVload pe td textEnd sva i).toList ++ (xbMOVstore pe td textEnd sva i).toList ++
    (xbCMP pe td textEnd sva i).toList

/-- `PEParser.find_string_xrefs`: map the string offset to an RVA (empty
result when unmapped), slice out the `.text` region, and scan positions
`0 ≤ i < len(text_data) - 7` with the five encoding branches. -/
def find_string_xrefs (pe : PEState) (string_offset : Nat) : List Nat :=
  match offset_to_rva pe string_offset with
  | none => []
  | some string_rva =>
    let string_va := pe.base + string_rva
    let td := (pe.data.drop pe.text_start).take pe.text_size
    let textEnd := td.length - 7
    (List.range textEnd).flatMap (fun i => xrefHitsAt pe td textEnd string_va i)

/-- `PEParser._is_prologue`: the fixed table of recognized prologue byte
sequences. -/
def is_prologue (d : List Nat) (off : Nat) : Bool :=
  if d.length < off + 5 then false
  else
    let b0 := d.getD off 0
    let b1 := d.getD (off + 1) 0
    let b2 := d.getD (off + 2) 0
    let b3 := d.getD (off + 3) 0
    (b0 = 72 && b1 = 137 && b2 = 92 && b3 = 36) ||      -- mov [rsp+xx], rbx
    (b0 = 72 && b1 = 137 && b2 = 116 && b3 = 36) ||     -- mov [rsp+xx], rsi
    (b0 = 72 && b1 = 137 && b2 = 76 && b3 = 36) ||      -- mov [rsp+xx], rcx
    (b0 = 72 && b1 = 137 && b2 = 84 && b3 = 36) ||      -- mov [rsp+xx], rdx
    (b0 = 72 && b1 = 137 && b2 = 108 && b3 = 36) ||     -- mov [rsp+xx], rbp
    (b0 = 76 && b1 = 137 && b2 = 68 && b3 = 36) ||      -- mov [rsp+xx], r8
    (b0 = 76 && b1 = 137 && b2 = 76 && b3 = 36) ||      -- mov [rsp+xx], r9
    (b0 = 64 && b1 = 83) ||                             -- push rbx
    (b0 = 64 && b1 = 85) ||                             -- push rbp
    (b0 = 64 && b1 = 86) ||                             -- push rsi
    (b0 = 64 && b1 = 87) ||                             -- push rdi
    (b0 = 72 && b1 = 131 && b2 = 236) ||                -- sub rsp, imm8
    (b0 = 72 && b1 = 129 && b2 = 236) ||                -- sub rsp, imm32
    (b0 = 72 && b1 = 139 && b2 = 236) ||                -- mov rbp, rsp
    (b0 = 85 && (b1 = 72 || b1 = 139)) ||               -- push rbp; REX
    (b0 = 83 && b1 = 72) ||                             -- push rbx; REX
    (b0 = 86 && b1 = 72) ||                             -- push rsi; REX
    (b0 = 87 && b1 = 72) ||                             -- push rdi; REX
    (b0 = 65 && (b1 = 84 || b1 = 85 || b1 = 86 || b1 = 87)) -- push r12..r15

/-- The inner `while candidate < offset and d[candidate] == 0xCC` skip of
strategy 1 (fuel bounds the climb, which never exceeds `offset`). -/
def skipCC (d : List Nat) (off : Nat) : Nat → Nat → Nat
  | 0, c => c
  | fuel + 1, c => if c < off ∧ d.getD c 0 = 204 then skipCC d off fuel (c + 1) else c

/-- Strategy 1 of `find_function_start`: walk `i` backwards over
`range(offset - 1, search_start, -1)` looking for a `0xCC`/`0xC3` terminator,
then skip `0xCC` padding and accept a following prologue. -/
def strat1 (d : List Nat) (off ss : Nat) : Nat → Nat → Option Nat
  | 0, _ => none
  | fuel + 1, i =>
    if i ≤ ss then none
    else if d.getD i 0 = 204 ∨ d.getD i 0 = 195 then
      if skipCC d off (off + 1) (i + 1) < off ∧
          is_prologue d (skipCC d off (off + 1) (i + 1)) then
        some (skipCC d off (off + 1) (i + 1))
      else strat1 d off ss fuel (i - 1)
    else strat1 d off ss fuel (i - 1)

/-- Strategy 2 of `find_function_start`: a prologue within 512 bytes whose
predecessor byte is a terminator (`0xCC`/`0xC3`/`0xCB`). -/
def strat2 (d : List Nat) (off ss : Nat) : Nat → Nat → Option Nat
  | 0, _ => none
  | fuel + 1, i =>
    if i ≤ ss then none
    else if is_prologue d i ∧ off - i < 512 ∧ 0 < i ∧
        (d.getD (i - 1) 0 = 204 ∨ d.getD (i - 1) 0 = 195 ∨ d.getD (i - 1) 0 = 203) then
      some i
    else strat2 d off ss fuel (i - 1)

/-- Strategy 3 of `find_function_start`: the nearest prologue within 256 bytes. -/
def strat3 (d : List Nat) (off ss : Nat) : Nat → Nat → Option Nat
  | 0, _ => none
  | fuel + 1, i =>
    if i ≤ ss then none
    else if is_prologue d i ∧ off - i < 256 then some i
    else strat3 d off ss fuel (i - 1)

/-- `PEParser.find_function_start`: the three ordered fallback tiers, first
success wins (the backward ranges start at `offset - 1` and stop before
`search_start = max(text_start, offset - max_search)`). -/
def find_function_start (pe : PEState) (off : Nat) (max_search : Nat) : Option Nat :=
  let ss := max pe.text_start (off - max_search)
  match strat1 pe.data off ss off (off - 1) with
  | some v => some v
  | none =>
    match strat2 pe.data off ss off (off - 1) with
    | some v => some v
    | none => strat3 pe.data off ss off (off - 1)

/-- The sixteen uppercase hexadecimal digit characters. -/
def hexTable : List Char :=
  ['0', '1', '2', '3', '4', '5', '6', '7', '8', '9', 'A', 'B', 'C', 'D', 'E', 'F']

/-- One uppercase hexadecimal digit. -/
def hexDigit (n : Nat) : Char := hexTable.getD n 'X'

/-- Python `f'{b:02X}'` for a byte value: two uppercase hexadecimal digits. -/
def hex2 (b : Nat) : String := String.mk [hexDigit (b / 16 % 16), hexDigit (b % 16)]

/-- Auxiliary digits of `hexUpper` (most significant first). -/
def hexUpperAux : Nat → Nat → List Char
  | 0, _ => []
  | fuel + 1, n => if n = 0 then [] else hexUpperAux fuel (n / 16) ++ [hexDigit (n % 16)]

/-- Python `f'{n:X}'`: uppercase hexadecimal without padding. -/
def hexUpper (n : Nat) : String :=
  if n = 0 then "0" else String.mk (hexUpperAux (n + 1) n)

/-- The `mov [rsp+disp8], reg` wildcard of `make_smart_pattern` (48/4C 89
with mod = 1): add the disp8 index (after the SIB byte when rm = 4); this
branch falls through in the source. -/
def spillWc (data : List Nat) (i : Nat) (acc : List Nat) : List Nat :=
  if i + 4 < data.length ∧ (data.getD i 0 = 72 ∨ data.getD i 0 = 76) ∧
      data.getD (i + 1) 0 = 137 ∧ data.getD (i + 2) 0 / 64 % 4 = 1 then
    if data.getD (i + 2) 0 % 8 = 4 then acc ++ [i + 4] else acc ++ [i + 3]
  else acc

/-- The `sub rsp, imm8` wildcard of `make_smart_pattern` (48 83 EC). -/
def subWc8 (data : List Nat) (i : Nat) (acc : List Nat) : List Nat :=
  if i + 3 < data.length ∧ data.getD i 0 = 72 ∧ data.getD (i + 1) 0 = 131 ∧
      data.getD (i + 2) 0 = 236 then acc ++ [i + 3]
  else acc

/-- The `sub rsp, imm32` wildcard of `make_smart_pattern` (48 81 EC). -/
def subWc32 (data : List Nat) (i : Nat) (acc : List Nat) : List Nat :=
  if i + 6 < data.length ∧ data.getD i 0 = 72 ∧ data.getD (i + 1) 0 = 129 ∧
      data.getD (i + 2) 0 = 236 then acc ++ [i + 3, i + 4, i + 5, i + 6]
  else acc

/-- The wildcard-index accumulation loop of `make_smart_pattern`, translated
branch for branch (the Python `set` is modelled as a list used only through
membership; the spill and sub-rsp branches fall through, the call/jmp and
RIP-relative branches advance past the instruction and continue). -/
def smartLoop (data : List Nat) : Nat → Nat → List Nat → List Nat
  | 0, _, acc => acc
  | fuel + 1, i, acc =>
    if i < data.length then
      let acc3 := subWc32 data i (subWc8 data i (spillWc data i acc))
      if data.getD i 0 = 232 ∧ i + 4 < data.length then          -- CALL rel32
        smartLoop data fuel (i + 5) (acc3 ++ [i + 1, i + 2, i + 3, i + 4])
      else if data.getD i 0 = 233 ∧ i + 4 < data.length then     -- JMP rel32
        smartLoop data fuel (i + 5) (acc3 ++ [i + 1, i + 2, i + 3, i + 4])
      else if i + 6 < data.length ∧ (data.getD i 0 = 72 ∨ data.getD i 0 = 76) ∧
          data.getD (i + 1) 0 = 141 ∧ data.getD (i + 2) 0 / 64 % 4 = 0 ∧
          data.getD (i + 2) 0 % 8 = 5 then                       -- LEA RIP-relative
        smartLoop data fuel (i + 7) (acc3 ++ [i + 3, i + 4, i + 5, i + 6])
      else if i + 6 < data.length ∧ (data.getD i 0 = 72 ∨ data.getD i 0 = 76) ∧
          (data.getD (i + 1) 0 = 139 ∨ data.getD (i + 1) 0 = 137) ∧
          data.getD (i + 2) 0 / 64 % 4 = 0 ∧ data.getD (i + 2) 0 % 8 = 5 then
        smartLoop data fuel (i + 7) (acc3 ++ [i + 3, i + 4, i + 5, i + 6]) -- MOV RIP-relative
      else smartLoop data fuel (i + 1) acc3
    else acc

/-- The byte window `make_smart_pattern` operates on: the requested length is
clamped to the end of the buffer. -/
def smartWindow (peData : List Nat) (func_offset length0 : Nat) : List Nat :=
  let length1 :=
    if peData.length < func_offset + length0 then peData.length - func_offset else length0
  (peData.drop func_offset).take length1

/-- The token list built by `make_smart_pattern`: one token per window byte,
`?` at wildcard indices, `f'{b:02X}'` elsewhere. -/
def smartTokens (peData : List Nat) (func_offset length0 : Nat) : List String :=
  let data := smartWindow peData func_offset length0
  let w := smartLoop data (data.length + 1) 0 []
  (List.range data.length).map (fun j => if j ∈ w then "?" else hex2 (data.getD j 0))

/-- `PEParser.make_smart_pattern`: the space-joined token list. -/
def make_smart_pattern (peData : List Nat) (func_offset length0 : Nat) : String :=
  String.intercalate " " (smartTokens peData func_offset length0)

/-- Displacement width of a recorded struct-offset instruction. -/
inductive DispForm where
  | d8
  | d32
deriving DecidableEq

/-- One dictionary assignment performed by
`extract_struct_offsets_from_function`: the displacement key, its description
tag, and (ghost, for stating the claim) which displacement form produced it. -/
structure OffEvent where
  form : DispForm
  key : Nat
  tag : String
deriving DecidableEq

/-- Operation names of the REX MOV/LEA branch of
`extract_struct_offsets_from_function` (total under the branch guard). -/
def opName (b : Nat) : String :=
  if b = 139 then "MOV" else if b = 137 then "MOV_STORE" else "LEA"

/-- Tag text `f"{opname} r{reg}, [r{rm}+0x{disp:X}]"`. -/
def movTag (b reg rm disp : Nat) : String :=
  opName b ++ " r" ++ toString reg ++ ", [r" ++ toString rm ++ "+0x" ++ hexUpper disp ++ "]"

/-- Tag text `f"MOVSS xmm, [r{rm}+0x{disp:X}]"`. -/
def movssTag (rm disp : Nat) : String :=
  "MOVSS xmm, [r" ++ toString rm ++ "+0x" ++ hexUpper disp ++ "]"

/-- Tag text `f"MOVSS_STORE [r{rm}+0x{disp:X}], xmm"`. -/
def movssStoreTag (rm disp : Nat) : String :=
  "MOVSS_STORE [r" ++ toString rm ++ "+0x" ++ hexUpper disp ++ "], xmm"

/-- The scan loop of `extract_struct_offsets_from_function`, emitting the
dictionary assignments in program order.  Where a matched outer opcode check
falls through with an unhandled ModRM, the Python code proceeds to the later
`MOVSS` checks; those cannot match (the leading byte differs), so the
translation advances by one byte directly. -/
def extractLoop (d : List Nat) (endB : Nat) : Nat → Nat → List OffEvent
  | 0, _ => []
  | fuel + 1, i =>
    if i < endB then
      let b0 := d.getD i 0
      if b0 = 195 ∨ b0 = 203 then []                       -- stop at RET (C3/CB)
      else
        let b1 := d.getD (i + 1) 0
        if i + 6 < endB ∧ (b0 = 72 ∨ b0 = 76) ∧ (b1 = 139 ∨ b1 = 137 ∨ b1 = 141) then
          let modrm := d.getD (i + 2) 0
          let rm := modrm % 8
          let reg := modrm / 8 % 8
          if modrm / 64 % 4 = 2 ∧ rm ≠ 4 then              -- [reg+disp32]
            let disp := i32at d (i + 3)
            (if 0 < disp ∧ disp < 4096 then
              [⟨DispForm.d32, disp.toNat, movTag b1 reg rm disp.toNat⟩] else []) ++
              extractLoop d endB fuel (i + 7)
          else if modrm / 64 % 4 = 1 ∧ rm ≠ 4 then         -- [reg+disp8]
            let disp := d.getD (i + 3) 0
            (if 0 < disp ∧ disp < 255 then
              [⟨DispForm.d8, disp, movTag b1 reg rm disp⟩] else []) ++
              extractLoop d endB fuel (i + 4)
          else extractLoop d endB fuel (i + 1)
        else if i + 7 < endB ∧ b0 = 243 ∧ b1 = 15 ∧ d.getD (i + 2) 0 = 16 then
          let modrm := d.getD (i + 3) 0                    -- MOVSS xmm, [reg+disp]
          let rm := modrm % 8
          if modrm / 64 % 4 = 2 ∧ rm ≠ 4 then
            let disp := i32at d (i + 4)
            (if 0 < disp ∧ disp < 4096 then
              [⟨DispForm.d32, disp.toNat, movssTag rm disp.toNat⟩] else []) ++
              extractLoop d endB fuel (i + 8)
          else if modrm / 64 % 4 = 1 ∧ rm ≠ 4 then
            let disp := d.getD (i + 4) 0
            (if 0 < disp ∧ disp < 255 then
              [⟨DispForm.d8, disp, movssTag rm disp⟩] else []) ++
              extractLoop d endB fuel (i + 5)
          else extractLoop d endB fuel (i + 1)
        else if i + 7 < endB ∧ b0 = 243 ∧ b1 = 15 ∧ d.getD (i + 2) 0 = 17 then
          let modrm := d.getD (i + 3) 0                    -- MOVSS [reg+disp32], xmm
          let rm := modrm % 8
          if modrm / 64 % 4 = 2 ∧ rm ≠ 4 then
            let disp := i32at d (i + 4)
            (if 0 < disp ∧ disp < 4096 then
              [⟨DispForm.d32, disp.toNat, movssStoreTag rm disp.toNat⟩] else []) ++
              extractLoop d endB fuel (i + 8)
          else extractLoop d endB fuel (i + 1)
        else extractLoop d endB fuel (i + 1)
    else []

/-- The dictionary assignments of `extract_struct_offsets_from_function` in
program order (`end = min(func_offset + max_scan, len(data) - 8)`). -/
def extract_struct_events (pe : PEState) (func_offset max_scan : Nat) : List OffEvent :=
  let endB := min (func_offset + max_scan) (pe.data.length - 8)
  extractLoop pe.data endB (endB + 1) func_offset

/-- A Python dictionary assignment: replace any binding of the key,
making the new binding the one `lookup` finds. -/
def dictInsert (m : List (Nat × String)) (k : Nat) (v : String) : List (Nat × String) :=
  (k, v) :: m.filter (fun p => p.1 ≠ k)

/-- `PEParser.extract_struct_offsets_from_function`: the dictionary obtained
by performing the assignments in order. -/
def extract_struct_offsets_from_function (pe : PEState) (func_offset max_scan : Nat) :
    List (Nat × String) :=
  (extract_struct_events pe func_offset max_scan).foldl
    (fun m e => dictInsert m e.key e.tag) []

/-- One result record of `scan_vtable_in_rdata`. -/
structure VtableHit where
  vtable_rva : Nat
  vtable_offset : Nat
  matched_at_index : Nat
  matched_rva : Nat
deriving DecidableEq

/-- `PEParser._find_vtable_start`: walk backwards through aligned words while
the previous word decodes to an RVA inside the `.text` range. -/
def findVtableStart (rdata : List Nat) (text_rva text_size base : Nat) :
    Nat → Nat → Nat
  | 0, i => i
  | fuel + 1, i =>
    if 8 ≤ i then
      let val := u64get rdata (i - 8)
      let rva := if base < val then val - base else 0
      if text_rva ≤ rva ∧ rva < text_rva + text_size then
        findVtableStart rdata text_rva text_size base fuel (i - 8)
      else i
    else i

/-- `PEParser.scan_vtable_in_rdata`: scan aligned words of the `.rdata` slice
over `range(0, len(rdata) - 8, 8)` for known function virtual addresses and
walk each hit back to its table start. -/
def scan_vtable_in_rdata (pe : PEState) (known_func_rvas : List Nat) : List VtableHit :=
  if known_func_rvas = [] then []
  else
    let rdata := (pe.data.drop pe.rdata_start).take pe.rdata_size
    let target_vas := known_func_rvas.map (fun rva => pe.base + rva)
    (List.range' 0 ((rdata.length - 8 + 7) / 8) 8).filterMap (fun i =>
      let val := u64get rdata i
      if val ∈ target_vas then
        let vs := findVtableStart rdata pe.text_rva pe.text_size pe.base (i + 1) i
        some { vtable_rva := pe.rdata_rva + vs, vtable_offset := pe.rdata_start + vs,
               matched_at_index := (i - vs) / 8, matched_rva := val - pe.base }
      else none)

/-- Python `bytes.find(sub, start, stop)`: the least position `p ≥ start` with
the whole match inside `[start, min(stop, len))`, else `none`. -/
def findSub (d sub : List Nat) (start stop : Nat) : Option Nat :=
  (List.range' start (min stop d.length + 1 - (sub.length + start))).find?
    (fun p => (List.range sub.length).all (fun j => d.getD (p + j) 0 == sub.getD j 0))

/-- The search loop of `find_global_pointer_to_rva`: repeated `bytes.find`
within `[data_start, data_start + data_size)`, stepping 8 past each match. -/
def fgpLoop (d target : List Nat) (endI : Nat) : Nat → Nat → List Nat
  | 0, _ => []
  | fuel + 1, idx =>
    if idx < endI then
      match findSub d target idx endI with
      | none => []
      | some pos => pos :: fgpLoop d target endI fuel (pos + 8)
    else []

/-- `PEParser.find_global_pointer_to_rva`: find every 8-byte little-endian
occurrence of `base + target_rva` in the `.data` region, stepping 8 bytes
past each hit. -/
def find_global_pointer_to_rva (pe : PEState) (target_rva : Nat) : List Nat :=
  fgpLoop pe.data (u64le (pe.base + target_rva)) (pe.data_start + pe.data_size)
    (pe.data_size + 1) pe.data_start

/-- A fully-populated 40-byte section-table record. -/
def secRec (nm : List Nat) (vsize rva rawsz rawoff : Nat) : List Nat :=
  nm ++ u32le vsize ++ u32le rva ++ u32le rawsz ++ u32le rawoff ++ zeros 16

/-- A minimal image whose optional-header magic is the 32-bit value `0x10b`:
`MZ`, `e_lfanew = 0x40`, `PE\x00\x00`, zero sections, optional-header size 2. -/
def c2bytes : List Nat :=
  [77, 90] ++ zeros 58 ++ u32le 64 ++ [80, 69, 0, 0] ++ [0, 0] ++ u16le 0 ++
    zeros 12 ++ u16le 2 ++ [0, 0] ++ u16le 267

/-- The parse result of `c2bytes`: default base, no sections. -/
def c2pe : PEState :=
  { data := c2bytes, base := 0x140000000, sections := [],
    text_start := 0, text_size := 0, text_rva := 0,
    rdata_start := 0, rdata_size := 0, rdata_rva := 0,
    data_start := 0, data_size := 0, data_rva := 0 }

/-- An image with two sections whose file ranges overlap (both map file
offsets 1024..1279, at RVAs 4096 and 8192 respectively). -/
def c3bytes : List Nat :=
  [77, 90] ++ zeros 58 ++ u32le 64 ++ [80, 69, 0, 0] ++ [0, 0] ++ u16le 2 ++
    zeros 12 ++ u16le 2 ++ [0, 0] ++ [0, 0] ++
    secRec ([65] ++ zeros 7) 0 4096 256 1024 ++
    secRec ([66] ++ zeros 7) 0 8192 256 1024

/-- The parse result of `c3bytes`. -/
def c3pe : PEState :=
  { data := c3bytes, base := 0x140000000,
    sections := [⟨[65], 0, 4096, 256, 1024⟩, ⟨[66], 0, 8192, 256, 1024⟩],
    text_start := 0, text_size := 0, text_rva := 0,
    rdata_start := 0, rdata_size := 0, rdata_rva := 0,
    data_start := 0, data_size := 0, data_rva := 0 }

/-- A single-section image state (disjointness is vacuous), for round-trip
witnesses. -/
def c3wpe : PEState :=
  { data := [], base := 0x140000000,
    sections := [⟨[65], 0, 4096, 256, 1024⟩],
    text_start := 0, text_size := 0, text_rva := 0,
    rdata_start := 0, rdata_size := 0, rdata_rva := 0,
    data_start := 0, data_size := 0, data_rva := 0 }

/-- A 13-byte `.text` region beginning with a REX MOV load
`48 8B 05 disp32 = 5` whose computed target is the string at offset 12
(RVA 4108): the instruction lies in the region but past the scan guard. -/
def pe1c : PEState :=
  { data := [72, 139, 5, 5, 0, 0, 0, 0, 0, 0, 0, 0, 88],
    base := 0x140000000,
    sections := [⟨[65], 0, 4096, 13, 0⟩],
    text_start := 0, text_size := 13, text_rva := 4096,
    rdata_start := 0, rdata_size := 0, rdata_rva := 0,
    data_start := 0, data_size := 0, data_rva := 0 }

/-- A 14-byte `.text` region beginning with a REX MOV load
`48 8B 05 disp32 = 6` targeting the string at offset 13 (RVA 4109): the
instruction is within the scan guard, so it is reported. -/
def pe1w : PEState :=
  { data := [72, 139, 5, 6, 0, 0, 0, 0, 0, 0, 0, 0, 0, 88],
    base := 0x140000000,
    sections := [⟨[65], 0, 4096, 14, 0⟩],
    text_start := 0, text_size := 14, text_rva := 4096,
    rdata_start := 0, rdata_size := 0, rdata_rva := 0,
    data_start := 0, data_size := 0, data_rva := 0 }

/-- The literal layout of the claimed tier-1 test: `[RET][NOP][NOP]` then the
prologue `mov [rsp+8], rbx` and NOP interior. -/
def pe4c : PEState :=
  { data := [195, 144, 144, 72, 137, 92, 36, 8, 144, 144, 144, 144],
    base := 0x140000000, sections := [],
    text_start := 0, text_size := 12, text_rva := 4096,
    rdata_start := 0, rdata_size := 0, rdata_rva := 0,
    data_start := 0, data_size := 0, data_rva := 0 }

/-- The same layout with trap (`0xCC`) padding instead of NOPs. -/
def pe4w : PEState :=
  { data := [195, 204, 204, 72, 137, 92, 36, 8, 144, 144, 144, 144],
    base := 0x140000000, sections := [],
    text_start := 0, text_size := 12, text_rva := 4096,
    rdata_start := 0, rdata_size := 0, rdata_rva := 0,
    data_start := 0, data_size := 0, data_rva := 0 }

/-- A 4-byte window `48 83 EC 28` (`sub rsp, 0x28`). -/
def w5bytes : List Nat := [72, 131, 236, 40]

/-- A 7-byte window holding exactly one RIP-relative LEA
`48 8D 0D 01 02 03 04`. -/
def w6bytes : List Nat := [72, 141, 13, 1, 2, 3, 4]

/-- A function body with one disp8 MOV (`48 8B 41 10`), one disp32 MOV
(`48 8B 81 20 00 00 00`) and a RET. -/
def pe7 : PEState :=
  { data := [72, 139, 65, 16, 72, 139, 129, 32, 0, 0, 0, 195] ++ zeros 12,
    base := 0x140000000, sections := [],
    text_start := 0, text_size := 0, text_rva := 0,
    rdata_start := 0, rdata_size := 0, rdata_rva := 0,
    data_start := 0, data_size := 0, data_rva := 0 }

/-- An `.rdata` region laid out as `[non-code 0][funcA][funcB][funcC]` with
funcA/B/C at RVAs 272/288/304 inside the code range [256, 512). -/
def pe8 : PEState :=
  { data := u64le 0 ++ u64le 4368 ++ u64le 4384 ++ u64le 4400,
    base := 4096, sections := [],
    text_start := 0, text_size := 256, text_rva := 256,
    rdata_start := 0, rdata_size := 32, rdata_rva := 12288,
    data_start := 0, data_size := 0, data_rva := 0 }

/-- A `.data` region holding the target pointer at the unaligned offset 1. -/
def pe9c : PEState :=
  { data := [9] ++ u64le 4660 ++ zeros 7,
    base := 4096, sections := [],
    text_start := 0, text_size := 0, text_rva := 0,
    rdata_start := 0, rdata_size := 0, rdata_rva := 0,
    data_start := 0, data_size := 16, data_rva := 8192 }

/-- A `.data` region holding the target pointer at the aligned offset 0. -/
def pe9w : PEState :=
  { data := u64le 4660 ++ zeros 8,
    base := 4096, sections := [],
    text_start := 0, text_size := 0, text_rva := 0,
    rdata_start := 0, rdata_size := 0, rdata_rva := 0,
    data_start := 0, data_size := 16, data_rva := 8192 }

/-- Pairwise disjointness of section file ranges (not validated or enforced
by the parser; hypothesis of the amended round-trip claim). -/
def PairwiseFileDisjoint (l : List PESection) : Prop :=
  l.Pairwise (fun a b => ∀ x, ¬(inFile a x ∧ inFile b x))

/-- Pairwise disjointness of section RVA ranges. -/
def PairwiseRvaDisjoint (l : List PESection) : Prop :=
  l.Pairwise (fun a b => ∀ x, ¬(inRva a x ∧ inRva b x))

/-- A token form predicate: a two-character string of uppercase hexadecimal
digits. -/
def isHex2 (s : String) : Prop := s.length = 2 ∧ ∀ c ∈ s.data, c ∈ hexTable

instance (s : String) : Decidable (isHex2 s) := by
  unfold isHex2; infer_instance

/-- The tag of the last dictionary assignment with the given key (used to
state that later assignments overwrite earlier ones). -/
def lastTag (es : List OffEvent) (k : Nat) : Option String :=
  ((es.filter (fun e => e.key = k)).getLast?).map OffEvent.tag

/-- If a Boolean predicate can hold for at most one position of a list (a
pairwise-exclusivity hypothesis), `find?` returns any member satisfying it. -/
theorem findPred_unique {α : Type} (p : α → Bool) (l : List α)
    (hpw : l.Pairwise fun a b => ¬(p a = true ∧ p b = true)) :
    ∀ t ∈ l, p t = true → l.find? p = some t := by
  induction l with
  | nil => intro t ht; cases ht
  | cons c rest ih =>
    intro t ht hpt
    rcases List.pairwise_cons.mp hpw with ⟨hc, hrest⟩
    by_cases hpc : p c = true
    · rcases List.mem_cons.mp ht with rfl | htr
      · simp [List.find?_cons_of_pos _ hpc]
      · exact absurd ⟨hpc, hpt⟩ (hc t htr)
    · rcases List.mem_cons.mp ht with rfl | htr
      · exact absurd hpt hpc
      · rw [List.find?_cons_of_neg _ (by simpa using hpc)]
        exact ih hrest t htr hpt

/-- C3 (amended): the address round-trip holds in both directions for every
image whose sections have pairwise-disjoint file ranges and pairwise-disjoint
RVA ranges; the parser enforces no such disjointness, and with overlapping
sections the round-trip fails (see the counterexample). -/
theorem C3_theorem (pe : PEState)
    (hf : PairwiseFileDisjoint pe.sections) (hv : PairwiseRvaDisjoint pe.sections) :
    (∀ rva, (∃ s ∈ pe.sections, inRva s rva) →
      (rva_to_offset pe rva).bind (offset_to_rva pe) = some rva) ∧
    (∀ off, (∃ s ∈ pe.sections, inFile s off) →
      (offset_to_rva pe off).bind (rva_to_offset pe) = some off) := by
  constructor
  · rintro rva ⟨s, hs, hsr⟩
    have hex : (pe.sections.find? (fun s => decide (inRva s rva))).isSome := by
      rw [List.find?_isSome]; exact ⟨s, hs, by simpa using hsr⟩
    obtain ⟨s1, hfind⟩ := Option.isSome_iff_exists.mp hex
    have hs1r : inRva s1 rva := by simpa using List.find?_some hfind
    have hs1m : s1 ∈ pe.sections := List.mem_of_find?_eq_some hfind
    have hoff : inFile s1 (rva - s1.rva + s1.raw_offset) := by
      rcases hs1r with ⟨h1, h2⟩; exact ⟨by omega, by omega⟩
    have hfind2 : pe.sections.find?
        (fun t => decide (inFile t (rva - s1.rva + s1.raw_offset))) = some s1 := by
      apply findPred_unique _ _ _ s1 hs1m (by simpa using hoff)
      exact hf.imp (fun h => by
        intro hand
        exact h (rva - s1.rva + s1.raw_offset) (by simpa using hand))
    rw [rva_to_offset, hfind]
    simp only [Option.map_some', Option.some_bind]
    rw [offset_to_rva, hfind2]
    simp only [Option.map_some']
    rcases hs1r with ⟨h1, _⟩
    congr 1
    omega
  · rintro off ⟨s, hs, hsf⟩
    have hex : (pe.sections.find? (fun s => decide (inFile s off))).isSome := by
      rw [List.find?_isSome]; exact ⟨s, hs, by simpa using hsf⟩
    obtain ⟨s1, hfind⟩ := Option.isSome_iff_exists.mp hex
    have hs1f : inFile s1 off := by simpa using List.find?_some hfind
    have hs1m : s1 ∈ pe.sections := List.mem_of_find?_eq_some hfind
    have hrva : inRva s1 (off - s1.raw_offset + s1.rva) := by
      rcases hs1f with ⟨h1, h2⟩; exact ⟨by omega, by omega⟩
    have hfind2 : pe.sections.find?
        (fun t => decide (inRva t (off - s1.raw_offset + s1.rva))) = some s1 := by
      apply findPred_unique _ _ _ s1 hs1m (by simpa using hrva)
      exact hv.imp (fun h => by
        intro hand
        exact h (off - s1.raw_offset + s1.rva) (by simpa using hand))
    rw [offset_to_rva, hfind]
    simp only [Option.map_some', Option.some_bind]
    rw [rva_to_offset, hfind2]
    simp only [Option.map_some']
    rcases hs1f with ⟨h1, _⟩
    congr 1
    omega

/-- C3 witness: round trips through a concrete single-section image. -/
theorem C3_witness :
    (rva_to_offset c3wpe 4100).bind (offset_to_rva c3wpe) = some 4100 ∧
    (offset_to_rva c3wpe 1030).bind (rva_to_offset c3wpe) = some 1030 := by
  have h := C3_theorem c3wpe (by simp [PairwiseFileDisjoint, c3wpe])
    (by simp [PairwiseRvaDisjoint, c3wpe])
  exact ⟨h.1 4100 ⟨⟨[65], 0, 4096, 256, 1024⟩, by simp [c3wpe], by decide⟩,
    h.2 1030 ⟨⟨[65], 0, 4096, 256, 1024⟩, by simp [c3wpe], by decide⟩⟩

/-- C3 counterexample: `c3bytes` parses successfully into an image with two
sections sharing the file range 1024..1279; for RVA 8192 (inside the second
section, which is file-backed) the round trip returns 4096, not 8192. -/
theorem C3_counterexample :
    parsePE c3bytes = Except.ok c3pe ∧
    (∃ s ∈ c3pe.sections, inRva s 8192) ∧
    (rva_to_offset c3pe 8192).bind (offset_to_rva c3pe) = some 4096 ∧
    (4096 : Nat) ≠ 8192 := by
  refine ⟨?_, ⟨⟨[66], 0, 8192, 256, 1024⟩, by simp [c3pe], by decide⟩, by decide, by decide⟩
  set_option maxRecDepth 20000 in exact rfl

/-- C2 (amended): the parse fails with the missing-`MZ` error exactly when the
two leading bytes are not `MZ`; it fails with the bad-signature error when the
four bytes at the header offset are not `PE\x00\x00` (including an offset past
the buffer, where the slice is short); a too-short buffer fails the raw field
read; but an optional-header magic different from the 64-bit value `0x20b`
does NOT make the parse fail — `c2bytes` (magic `0x10b`) parses successfully
with the default base address. -/
theorem C2_theorem :
    (∀ d : List Nat, d.take 2 ≠ [77, 90] → parsePE d = Except.error PErr.notMZ) ∧
    (∀ d : List Nat, d.take 2 = [77, 90] → u32at d 60 = none →
      parsePE d = Except.error PErr.shortRead) ∧
    (∀ d e, d.take 2 = [77, 90] → u32at d 60 = some e →
      (d.drop e).take 4 ≠ [80, 69, 0, 0] → parsePE d = Except.error PErr.badPESig) ∧
    parsePE c2bytes = Except.ok c2pe := by
  refine ⟨?_, ?_, ?_, ?_⟩
  · intro d h; rw [parsePE, if_pos h]
  · intro d h1 h2; rw [parsePE, if_neg (not_not_intro h1), h2]
  · intro d e h1 h2 h3
    rw [parsePE, if_neg (not_not_intro h1), h2]
    simp only [if_pos h3]
  · set_option maxRecDepth 20000 in exact rfl

/-- C2 witness: the empty buffer fails the `MZ` check. -/
theorem C2_witness : parsePE [] = Except.error PErr.notMZ :=
  C2_theorem.1 [] (by decide)

/-- C2 counterexample: `c2bytes` has optional-header magic `0x10b` (267, not
the 64-bit 523), yet the parse succeeds instead of raising a format error. -/
theorem C2_counterexample :
    u16at c2bytes 88 = some 267 ∧ (267 : Nat) ≠ 523 ∧ (parsePE c2bytes).isOk = true := by
  refine ⟨by decide, by decide, ?_⟩
  set_option maxRecDepth 20000 in exact rfl

/-- A successful `bytes.find` returns the match position: at or after `start`,
fitting before both `stop` and the end of the buffer, with all bytes equal. -/
theorem findSub_sound (d sub : List Nat) (start stop p : Nat)
    (h : findSub d sub start stop = some p) :
    start ≤ p ∧ p + sub.length ≤ min stop d.length ∧
      ∀ j < sub.length, d.getD (p + j) 0 = sub.getD j 0 := by
  unfold findSub at h
  have hmem := List.mem_of_find?_eq_some h
  have hpred := List.find?_some h
  rw [List.mem_range'_1] at hmem
  refine ⟨hmem.1, by omega, ?_⟩
  intro j hj
  have := List.all_eq_true.mp hpred j (List.mem_range.mpr hj)
  simpa using this

/-- Every position produced by the global-pointer search loop is at or after
the running index, fits inside the search bound and buffer, and matches the
target bytes exactly. -/
theorem fgpLoop_sound (d target : List Nat) (endI : Nat) :
    ∀ fuel idx, ∀ p ∈ fgpLoop d target endI fuel idx,
      idx ≤ p ∧ p + target.length ≤ min endI d.length ∧
        ∀ j < target.length, d.getD (p + j) 0 = target.getD j 0 := by
  intro fuel
  induction fuel with
  | zero => intro idx p hp; simp [fgpLoop] at hp
  | succ n ih =>
    intro idx p hp
    simp only [fgpLoop] at hp
    split at hp
    · cases hfind : findSub d target idx endI with
      | none => rw [hfind] at hp; simp at hp
      | some pos =>
        rw [hfind] at hp
        rcases List.mem_cons.mp hp with rfl | hrest
        · have hs := findSub_sound d target idx endI p hfind
          exact ⟨hs.1, hs.2.1, hs.2.2⟩
        · have h2 := ih (pos + 8) p hrest
          have h3 := findSub_sound d target idx endI pos hfind
          exact ⟨by omega, h2.2.1, h2.2.2⟩
    · simp at hp

/-- C9 (amended): every position returned by `find_global_pointer_to_rva`
lies inside the `.data` region (and the buffer) and holds an exact 8-byte
little-endian copy of the target virtual address; 8-byte alignment within the
region is NOT guaranteed — the search advances 8 bytes past each hit but
`bytes.find` matches at any byte offset (see the counterexample). -/
theorem C9_theorem (pe : PEState) (target_rva : Nat) :
    ∀ p ∈ find_global_pointer_to_rva pe target_rva,
      pe.data_start ≤ p ∧ p + 8 ≤ pe.data_start + pe.data_size ∧ p + 8 ≤ pe.data.length ∧
      ∀ j < 8, pe.data.getD (p + j) 0 = (u64le (pe.base + target_rva)).getD j 0 := by
  intro p hp
  have h := fgpLoop_sound pe.data (u64le (pe.base + target_rva))
    (pe.data_start + pe.data_size) (pe.data_size + 1) pe.data_start p hp
  have hlen : (u64le (pe.base + target_rva)).length = 8 := rfl
  rw [hlen] at h
  have hmin := le_min_iff.mp h.2.1
  exact ⟨h.1, hmin.1, hmin.2, h.2.2⟩

/-- C9 witness: the aligned hit in `pe9w` is in-region and an exact match. -/
theorem C9_witness :
    0 ∈ find_global_pointer_to_rva pe9w 564 ∧
    pe9w.data_start ≤ 0 ∧ 0 + 8 ≤ pe9w.data_start + pe9w.data_size ∧
    0 + 8 ≤ pe9w.data.length ∧
    (∀ j < 8, pe9w.data.getD (0 + j) 0 = (u64le (pe9w.base + 564)).getD j 0) := by
  have hm : 0 ∈ find_global_pointer_to_rva pe9w 564 := by decide
  have h := C9_theorem pe9w 564 0 hm
  exact ⟨hm, h.1, h.2.1, h.2.2.1, h.2.2.2⟩

/-- C9 counterexample: in `pe9c` the target pointer sits at offset 1 of the
`.data` region; the scan returns it although it is not 8-byte aligned. -/
theorem C9_counterexample :
    find_global_pointer_to_rva pe9c 564 = [1] ∧ (1 - pe9c.data_start) % 8 = 1 := by
  exact ⟨by decide, by decide⟩

/-- C8 (amended): for the region `[non-code][funcA][funcB][funcC]` the scan
yields one hit per scanned matching slot — two hits, for funcA and funcB, each
with table start at the funcA slot (offset 8, RVA 12296) and matched indices
0 and 1; the funcC slot at offset 24 is outside the scan bound
`len(rdata) - 8` and produces no hit, and no run length is reported (the
result records only the start, the matched index and the matched RVA). -/
theorem C8_theorem :
    scan_vtable_in_rdata pe8 [272, 288, 304] =
      [⟨12296, 8, 0, 272⟩, ⟨12296, 8, 1, 288⟩] := by decide

/-- C8 counterexample: the layout claimed to yield exactly one `VtableMatch`
with run length 3 in fact yields two matches (and no run-length field exists). -/
theorem C8_counterexample :
    (scan_vtable_in_rdata pe8 [272, 288, 304]).length = 2 ∧ (2 : Nat) ≠ 1 := by
  exact ⟨by decide, by decide⟩

/-- The spill-wildcard step only adds indices. -/
theorem spillWc_sub (data : List Nat) (i : Nat) (acc : List Nat) :
    acc ⊆ spillWc data i acc := by
  unfold spillWc; split_ifs <;> simp

/-- The sub-imm8 wildcard step only adds indices. -/
theorem subWc8_sub (data : List Nat) (i : Nat) (acc : List Nat) :
    acc ⊆ subWc8 data i acc := by
  unfold subWc8; split_ifs <;> simp

/-- The sub-imm32 wildcard step only adds indices. -/
theorem subWc32_sub (data : List Nat) (i : Nat) (acc : List Nat) :
    acc ⊆ subWc32 data i acc := by
  unfold subWc32; split_ifs <;> simp

/-- Indices added by the spill-wildcard step are past the current position. -/
theorem spillWc_elems (data : List Nat) (i : Nat) (acc : List Nat) (x : Nat)
    (hx : x ∈ spillWc data i acc) : x ∈ acc ∨ i + 1 ≤ x := by
  unfold spillWc at hx
  split_ifs at hx
  · rcases List.mem_append.mp hx with h | h
    · exact Or.inl h
    · simp at h; omega
  · rcases List.mem_append.mp hx with h | h
    · exact Or.inl h
    · simp at h; omega
  · exact Or.inl hx

/-- Indices added by the sub-imm8 step are past the current position. -/
theorem subWc8_elems (data : List Nat) (i : Nat) (acc : List Nat) (x : Nat)
    (hx : x ∈ subWc8 data i acc) : x ∈ acc ∨ i + 1 ≤ x := by
  unfold subWc8 at hx
  split_ifs at hx
  · rcases List.mem_append.mp hx with h | h
    · exact Or.inl h
    · simp at h; omega
  · exact Or.inl hx

/-- Indices added by the sub-imm32 step are past the current position. -/
theorem subWc32_elems (data : List Nat) (i : Nat) (acc : List Nat) (x : Nat)
    (hx : x ∈ subWc32 data i acc) : x ∈ acc ∨ i + 1 ≤ x := by
  unfold subWc32 at hx
  split_ifs at hx
  · rcases List.mem_append.mp hx with h | h
    · exact Or.inl h
    · simp at h; omega
  · exact Or.inl hx

/-- The wildcard loop never removes accumulated indices. -/
theorem smartLoop_acc_sub (data : List Nat) :
    ∀ fuel i acc, acc ⊆ smartLoop data fuel i acc := by
  intro fuel
  induction fuel with
  | zero => intro i acc; simp [smartLoop]
  | succ n ih =>
    intro i acc
    rw [smartLoop]
    split
    · have hstep : acc ⊆ subWc32 data i (subWc8 data i (spillWc data i acc)) :=
        ((spillWc_sub data i acc).trans (subWc8_sub data i _)).trans (subWc32_sub data i _)
      split_ifs
      · exact hstep.trans ((List.subset_append_left _ _).trans (ih _ _))
      · exact hstep.trans ((List.subset_append_left _ _).trans (ih _ _))
      · exact hstep.trans ((List.subset_append_left _ _).trans (ih _ _))
      · exact hstep.trans ((List.subset_append_left _ _).trans (ih _ _))
      · exact hstep.trans (ih _ _)
    · exact fun x hx => hx

/-- Every index the wildcard loop adds from position `i` onward exceeds `i`. -/
theorem smartLoop_elems (data : List Nat) :
    ∀ fuel i acc x, x ∈ smartLoop data fuel i acc → x ∈ acc ∨ i + 1 ≤ x := by
  intro fuel
  induction fuel with
  | zero => intro i acc x hx; rw [smartLoop] at hx; exact Or.inl hx
  | succ n ih =>
    intro i acc x hx
    rw [smartLoop] at hx
    have hstep : ∀ y, y ∈ subWc32 data i (subWc8 data i (spillWc data i acc)) →
        y ∈ acc ∨ i + 1 ≤ y := by
      intro y hy
      rcases subWc32_elems data i _ y hy with hy2 | hy2
      · rcases subWc8_elems data i _ y hy2 with hy3 | hy3
        · exact spillWc_elems data i _ y hy3
        · exact Or.inr hy3
      · exact Or.inr hy2
    split at hx
    · split_ifs at hx
      · rcases ih _ _ x hx with h | h
        · rcases List.mem_append.mp h with h2 | h2
          · exact hstep x h2
          · simp at h2; omega
        · omega
      · rcases ih _ _ x hx with h | h
        · rcases List.mem_append.mp h with h2 | h2
          · exact hstep x h2
          · simp at h2; omega
        · omega
      · rcases ih _ _ x hx with h | h
        · rcases List.mem_append.mp h with h2 | h2
          · exact hstep x h2
          · simp at h2; omega
        · omega
      · rcases ih _ _ x hx with h | h
        · rcases List.mem_append.mp h with h2 | h2
          · exact hstep x h2
          · simp at h2; omega
        · omega
      · rcases ih _ _ x hx with h | h
        · exact hstep x h
        · omega
    · exact Or.inl hx

/-- Indexing a map over `List.range`. -/
theorem getD_map_range {β : Type} (n j : Nat) (f : Nat → β) (dflt : β) (hj : j < n) :
    ((List.range n).map f).getD j dflt = f j := by
  rw [List.getD_eq_getElem?_getD, List.getElem?_map]
  simp [List.getElem?_range hj]

/-- A digit below 16 renders as an uppercase hexadecimal character. -/
theorem hexDigit_mem (n : Nat) (h : n < 16) : hexDigit n ∈ hexTable := by
  interval_cases n <;> decide

/-- `f'{b:02X}'` of a byte is a two-digit uppercase hexadecimal token. -/
theorem hex2_isHex2 (b : Nat) (hb : b < 256) : isHex2 (hex2 b) := by
  constructor
  · rfl
  · intro c hc
    have : c = hexDigit (b / 16 % 16) ∨ c = hexDigit (b % 16) := by
      simpa [hex2] using hc
    rcases this with rfl | rfl
    · exact hexDigit_mem _ (by omega)
    · exact hexDigit_mem _ (by omega)

/-- First step of the wildcard loop on a window opening with a RIP-relative
LEA (prefix 72/76, opcode 141, ModRM mod = 0 rm = 5): indices 3..6 are
wildcarded and the loop resumes at position 7. -/
theorem smartLoop_lea_step (w : List Nat) (n : Nat) (hlen : 7 ≤ w.length)
    (h0 : w.getD 0 0 = 72 ∨ w.getD 0 0 = 76) (h1 : w.getD 1 0 = 141)
    (hmod : w.getD 2 0 / 64 % 4 = 0) (hrm : w.getD 2 0 % 8 = 5) :
    smartLoop w (n + 1) 0 [] = smartLoop w n 7 [3, 4, 5, 6] := by
  rw [smartLoop, if_pos (by omega : 0 < w.length)]
  have hsp : spillWc w 0 [] = [] := by
    unfold spillWc
    rw [if_neg]
    rintro ⟨-, -, hc, -⟩
    simp only [Nat.zero_add] at hc
    omega
  have hs8 : subWc8 w 0 [] = [] := by
    unfold subWc8
    rw [if_neg]
    rintro ⟨-, -, hc, -⟩
    simp only [Nat.zero_add] at hc
    omega
  have hs32 : subWc32 w 0 [] = [] := by
    unfold subWc32
    rw [if_neg]
    rintro ⟨-, -, hc, -⟩
    simp only [Nat.zero_add] at hc
    omega
  simp only [hsp, hs8, hs32]
  rw [if_neg (by rintro ⟨hc, -⟩; rcases h0 with h | h <;> omega)]
  rw [if_neg (by rintro ⟨hc, -⟩; rcases h0 with h | h <;> omega)]
  rw [if_pos ⟨by omega, h0, by simpa using h1, by simpa using hmod, by simpa using hrm⟩]
  norm_num

/-- C6 (confirmed): for a window beginning with a 7-byte RIP-relative LEA
(width-extension prefix 0x48/0x4C, opcode 0x8D, ModRM mod = 0 rm = 5,
32-bit displacement), `make_smart_pattern` wildcards byte positions 3..6 and
emits positions 0..2 as literal hexadecimal byte tokens. -/
theorem C6_theorem (w : List Nat) (hlen : 7 ≤ w.length)
    (h0 : w.getD 0 0 = 72 ∨ w.getD 0 0 = 76) (h1 : w.getD 1 0 = 141)
    (hmod : w.getD 2 0 / 64 % 4 = 0) (hrm : w.getD 2 0 % 8 = 5) :
    (∀ j, 3 ≤ j → j ≤ 6 → (smartTokens w 0 w.length).getD j "" = "?") ∧
    (∀ j ≤ 2, (smartTokens w 0 w.length).getD j "" = hex2 (w.getD j 0)) := by
  have hwin : smartWindow w 0 w.length = w := by
    unfold smartWindow
    rw [if_neg (by omega)]
    simp
  have htok : smartTokens w 0 w.length = (List.range w.length).map
      (fun j => if j ∈ smartLoop w (w.length + 1) 0 [] then "?" else hex2 (w.getD j 0)) := by
    simp only [smartTokens, hwin]
  have hW := smartLoop_lea_step w w.length hlen h0 h1 hmod hrm
  constructor
  · intro j hj3 hj6
    rw [htok, getD_map_range _ _ _ _ (by omega)]
    rw [if_pos]
    rw [hW]
    apply smartLoop_acc_sub
    interval_cases j <;> decide
  · intro j hj2
    rw [htok, getD_map_range _ _ _ _ (by omega)]
    rw [if_neg]
    intro hj
    rw [hW] at hj
    rcases smartLoop_elems w w.length 7 [3, 4, 5, 6] j hj with h | h
    · simp at h; omega
    · omega

/-- C6 witness: the concrete window `48 8D 0D 01 02 03 04`. -/
theorem C6_witness :
    (7 ≤ w6bytes.length ∧ w6bytes.getD 1 0 = 141) ∧
    (smartTokens w6bytes 0 w6bytes.length).getD 3 "" = "?" ∧
    (smartTokens w6bytes 0 w6bytes.length).getD 6 "" = "?" ∧
    (smartTokens w6bytes 0 w6bytes.length).getD 0 "" = hex2 72 := by
  have h := C6_theorem w6bytes (by decide) (by decide) (by decide) (by decide) (by decide)
  refine ⟨by decide, h.1 3 (by decide) (by decide), h.1 6 (by decide) (by decide), ?_⟩
  have h2 := h.2 0 (by decide)
  simpa using h2

/-- C5 (confirmed): `make_smart_pattern` is deterministic (a pure function of
the bytes; the first two conjuncts record that two evaluations coincide and
that the output is the space-join of the token list in address order); the
token list has one token per window byte, and each token is either the
wildcard marker or the two-digit uppercase hexadecimal rendering of the
corresponding input byte. -/
theorem C5_theorem (peData : List Nat) (fo len0 : Nat)
    (hb : ∀ b ∈ smartWindow peData fo len0, b < 256) :
    make_smart_pattern peData fo len0 = make_smart_pattern peData fo len0 ∧
    make_smart_pattern peData fo len0 =
      String.intercalate " " (smartTokens peData fo len0) ∧
    (smartTokens peData fo len0).length = (smartWindow peData fo len0).length ∧
    ∀ j < (smartWindow peData fo len0).length,
      ((smartTokens peData fo len0).getD j "" = "?") ∨
      ((smartTokens peData fo len0).getD j "" = hex2 ((smartWindow peData fo len0).getD j 0) ∧
        isHex2 ((smartTokens peData fo len0).getD j "")) := by
  refine ⟨rfl, rfl, by simp [smartTokens], ?_⟩
  intro j hj
  have htok : smartTokens peData fo len0 =
      (List.range (smartWindow peData fo len0).length).map
        (fun j => if j ∈ smartLoop (smartWindow peData fo len0)
            ((smartWindow peData fo len0).length + 1) 0 [] then "?"
          else hex2 ((smartWindow peData fo len0).getD j 0)) := rfl
  rw [htok, getD_map_range _ _ _ _ hj]
  split_ifs with hmem
  · exact Or.inl rfl
  · refine Or.inr ⟨rfl, hex2_isHex2 _ ?_⟩
    apply hb
    rw [List.getD_eq_getElem _ _ hj]
    exact List.getElem_mem hj

/-- C5 witness: the window `48 83 EC 28` (`sub rsp, 0x28`). -/
theorem C5_witness :
    (smartTokens w5bytes 0 4).length = (smartWindow w5bytes 0 4).length ∧
    ((smartTokens w5bytes 0 4).getD 3 "" = "?" ∨
      ((smartTokens w5bytes 0 4).getD 3 "" = hex2 ((smartWindow w5bytes 0 4).getD 3 0) ∧
        isHex2 ((smartTokens w5bytes 0 4).getD 3 ""))) ∧
    ((smartTokens w5bytes 0 4).getD 0 "" = "?" ∨
      ((smartTokens w5bytes 0 4).getD 0 "" = hex2 ((smartWindow w5bytes 0 4).getD 0 0) ∧
        isHex2 ((smartTokens w5bytes 0 4).getD 0 ""))) := by
  have h := C5_theorem w5bytes 0 4 (by decide)
  exact ⟨h.2.2.1, h.2.2.2 3 (by decide), h.2.2.2 0 (by decide)⟩

/-- Every dictionary assignment recorded by the struct-offset scan respects
the per-form displacement guards of the source (`0 < disp < 0xFF` for disp8,
`0 < disp < 0x1000` for disp32). -/
theorem extractLoop_bounds (d : List Nat) (endB : Nat) :
    ∀ fuel i, ∀ e ∈ extractLoop d endB fuel i,
      (e.form = DispForm.d8 → 1 ≤ e.key ∧ e.key ≤ 254) ∧
      (e.form = DispForm.d32 → 1 ≤ e.key ∧ e.key ≤ 4095) := by
  intro fuel
  induction fuel with
  | zero => intro i e he; simp [extractLoop] at he
  | succ n ih =>
    intro i e he
    simp only [extractLoop] at he
    split at he
    case isFalse => simp at he
    case isTrue =>
      split at he
      case isTrue => simp at he
      case isFalse =>
        split at he
        case isTrue =>
          split at he
          case isTrue hg =>
            rcases List.mem_append.mp he with h | h
            · split at h
              case isTrue hp =>
                simp only [List.mem_singleton] at h
                subst h
                refine ⟨fun hf => by simp at hf, fun _ => by dsimp only; omega⟩
              case isFalse => simp at h
            · exact ih _ e h
          case isFalse =>
            split at he
            case isTrue hg =>
              rcases List.mem_append.mp he with h | h
              · split at h
                case isTrue hp =>
                  simp only [List.mem_singleton] at h
                  subst h
                  refine ⟨fun _ => by dsimp only; omega, fun hf => by simp at hf⟩
                case isFalse => simp at h
              · exact ih _ e h
            case isFalse => exact ih _ e he
        case isFalse =>
          split at he
          case isTrue =>
            split at he
            case isTrue hg =>
              rcases List.mem_append.mp he with h | h
              · split at h
                case isTrue hp =>
                  simp only [List.mem_singleton] at h
                  subst h
                  refine ⟨fun hf => by simp at hf, fun _ => by dsimp only; omega⟩
                case isFalse => simp at h
              · exact ih _ e h
            case isFalse =>
              split at he
              case isTrue hg =>
                rcases List.mem_append.mp he with h | h
                · split at h
                  case isTrue hp =>
                    simp only [List.mem_singleton] at h
                    subst h
                    refine ⟨fun _ => by dsimp only; omega, fun hf => by simp at hf⟩
                  case isFalse => simp at h
                · exact ih _ e h
              case isFalse => exact ih _ e he
          case isFalse =>
            split at he
            case isTrue =>
              split at he
              case isTrue hg =>
                rcases List.mem_append.mp he with h | h
                · split at h
                  case isTrue hp =>
                    simp only [List.mem_singleton] at h
                    subst h
                    refine ⟨fun hf => by simp at hf, fun _ => by dsimp only; omega⟩
                  case isFalse => simp at h
                · exact ih _ e h
              case isFalse => exact ih _ e he
            case isFalse => exact ih _ e he

/-- A dictionary assignment to a different key leaves a lookup unchanged. -/
theorem lookup_dictInsert_ne (m : List (Nat × String)) (k K : Nat) (v : String)
    (hne : k ≠ K) : List.lookup k (dictInsert m K v) = List.lookup k m := by
  unfold dictInsert
  rw [List.lookup_cons, beq_false_of_ne hne]
  induction m with
  | nil => rfl
  | cons a rest ih =>
    cases a with
    | mk a1 a2 =>
      by_cases ha : a1 = K
      · rw [List.filter_cons_of_neg (by simpa using ha)]
        rw [ih, List.lookup_cons, beq_false_of_ne (show k ≠ a1 by omega)]
      · rw [List.filter_cons_of_pos (by simpa using ha)]
        rw [List.lookup_cons, List.lookup_cons]
        by_cases hkk : k = a1
        · simp [hkk]
        · rw [beq_false_of_ne hkk]
          exact ih

/-- A dictionary assignment is observed by a lookup of the same key. -/
theorem lookup_dictInsert_eq (m : List (Nat × String)) (K : Nat) (v : String) :
    List.lookup K (dictInsert m K v) = some v := by
  unfold dictInsert
  rw [List.lookup_cons]
  simp

/-- Performing assignments in order makes each lookup return the tag of the
last assignment with that key. -/
theorem lookup_foldl_dictInsert (es : List OffEvent) (m : List (Nat × String)) (k : Nat) :
    List.lookup k (es.foldl (fun m e => dictInsert m e.key e.tag) m) =
      match (es.filter (fun e => decide (e.key = k))).getLast? with
      | some e => some e.tag
      | none => List.lookup k m := by
  induction es generalizing m with
  | nil => simp
  | cons e rest ih =>
    rw [List.foldl_cons, ih]
    by_cases hk : e.key = k
    · rw [List.filter_cons_of_pos (by simpa using hk)]
      cases hrest : (rest.filter (fun e => decide (e.key = k))).getLast? with
      | some e2 =>
        have hne : rest.filter (fun e => decide (e.key = k)) ≠ [] := by
          intro hnil; rw [hnil] at hrest; simp at hrest
        obtain ⟨b, l2, hbl⟩ := List.exists_cons_of_ne_nil hne
        rw [hbl]
        rw [hbl] at hrest
        rw [List.getLast?_cons_cons]
        rw [hrest]
      | none =>
        have hnil : rest.filter (fun e => decide (e.key = k)) = [] := by
          simpa [List.getLast?_eq_none_iff] using hrest
        rw [hnil]
        subst hk
        simp [lookup_dictInsert_eq]
    · rw [List.filter_cons_of_neg (by simpa using hk)]
      cases hrest : (rest.filter (fun e => decide (e.key = k))).getLast? with
      | some e2 => simp [hrest]
      | none =>
        simp only [hrest]
        exact lookup_dictInsert_ne m k e.key e.tag (fun h => hk h.symm)

/-- C7 (confirmed): every key recorded from the 8-bit displacement form lies
in 1..254 and every key recorded from the 32-bit displacement form lies in
1..4095; on displacement collision the returned mapping keeps the tag of the
last-seen instruction. -/
theorem C7_theorem (pe : PEState) (fo ms : Nat) :
    (∀ e ∈ extract_struct_events pe fo ms,
      (e.form = DispForm.d8 → 1 ≤ e.key ∧ e.key ≤ 254) ∧
      (e.form = DispForm.d32 → 1 ≤ e.key ∧ e.key ≤ 4095)) ∧
    (∀ k, List.lookup k (extract_struct_offsets_from_function pe fo ms) =
      lastTag (extract_struct_events pe fo ms) k) := by
  constructor
  · intro e he
    exact extractLoop_bounds pe.data (min (fo + ms) (pe.data.length - 8)) _ fo e he
  · intro k
    unfold extract_struct_offsets_from_function lastTag
    rw [lookup_foldl_dictInsert]
    cases h : ((extract_struct_events pe fo ms).filter (fun e => decide (e.key = k))).getLast? with
    | some e2 => simp
    | none => simp

/-- C7 witness: `pe7` records a disp8 key 0x10 and a disp32 key 0x20. -/
theorem C7_witness :
    (⟨DispForm.d8, 16, "MOV r0, [r1+0x10]"⟩ : OffEvent) ∈ extract_struct_events pe7 0 512 ∧
    (⟨DispForm.d32, 32, "MOV r0, [r1+0x20]"⟩ : OffEvent) ∈ extract_struct_events pe7 0 512 ∧
    (1 ≤ 16 ∧ 16 ≤ 254) ∧ (1 ≤ 32 ∧ 32 ≤ 4095) ∧
    List.lookup 16 (extract_struct_offsets_from_function pe7 0 512) =
      some "MOV r0, [r1+0x10]" := by
  have h := C7_theorem pe7 0 512
  refine ⟨by decide, by decide, ?_, ?_, ?_⟩
  · exact (h.1 ⟨DispForm.d8, 16, "MOV r0, [r1+0x10]"⟩ (by decide)).1 rfl
  · exact (h.1 ⟨DispForm.d32, 32, "MOV r0, [r1+0x20]"⟩ (by decide)).2 rfl
  · rw [h.2 16]; decide

/-- The trap-padding skip stops at a byte other than `0xCC` (or at `offset`). -/
theorem skipCC_stop (d : List Nat) (off : Nat) (fuel c : Nat)
    (h : ¬(c < off ∧ d.getD c 0 = 204)) : skipCC d off fuel c = c := by
  cases fuel with
  | zero => rfl
  | succ n => rw [skipCC, if_neg h]

/-- Tier 1 of the boundary resolver: when a terminator byte (`0xC3`/`0xCC`)
immediately precedes a prologue inside the search window and no terminator
byte occurs between the prologue and the query offset, the backward scan
returns the prologue start. -/
theorem strat1_reaches (d : List Nat) (off ss p : Nat)
    (hss : ss < p - 1) (hpo : p < off) (h1p : 1 ≤ p)
    (hterm : d.getD (p - 1) 0 = 204 ∨ d.getD (p - 1) 0 = 195)
    (hclean : ∀ j < off, p ≤ j → ¬(d.getD j 0 = 204 ∨ d.getD j 0 = 195))
    (hpro : is_prologue d p = true) :
    ∀ fuel i, p - 1 ≤ i → i < off → i < p - 1 + fuel →
      strat1 d off ss fuel i = some p := by
  intro fuel
  induction fuel with
  | zero => intro i h1 h2 h3; omega
  | succ n ih =>
    intro i h1 h2 h3
    rw [strat1]
    rw [if_neg (by omega)]
    by_cases hi : i = p - 1
    · subst hi
      rw [if_pos hterm]
      have hp1 : p - 1 + 1 = p := by omega
      rw [hp1]
      have hskip : skipCC d off (off + 1) p = p :=
        skipCC_stop d off (off + 1) p (by
          rintro ⟨hc1, hc2⟩
          exact hclean p hc1 le_rfl (Or.inl hc2))
      rw [hskip, if_pos ⟨hpo, hpro⟩]
    · rw [if_neg (hclean i h2 (by omega))]
      exact ih (i - 1) (by omega) (by omega) (by omega)

/-- C4 (amended): for a layout `[..][TERM][prologue][..interior]` in which the
byte before the prologue is a terminator `0xC3`/`0xCC` (as with trap padding,
which is what tier 1 skips — NOT the NOP `0x90` padding of the claim), with
the terminator inside the backward-scan window and no terminator between the
prologue and the query offset, tier 1 itself resolves the query to the
prologue start, and so does `find_function_start`.  With literal NOP padding
tier 1 finds nothing and the same result arrives only via tier 3 (see the
counterexample). -/
theorem C4_theorem (pe : PEState) (off p max_search : Nat)
    (hss : max pe.text_start (off - max_search) < p - 1)
    (hpo : p < off) (h1p : 1 ≤ p)
    (hterm : pe.data.getD (p - 1) 0 = 204 ∨ pe.data.getD (p - 1) 0 = 195)
    (hclean : ∀ j < off, p ≤ j → ¬(pe.data.getD j 0 = 204 ∨ pe.data.getD j 0 = 195))
    (hpro : is_prologue pe.data p = true) :
    strat1 pe.data off (max pe.text_start (off - max_search)) off (off - 1) = some p ∧
    find_function_start pe off max_search = some p := by
  have h1 := strat1_reaches pe.data off (max pe.text_start (off - max_search)) p hss hpo h1p
    hterm hclean hpro off (off - 1) (by omega) (by omega) (by omega)
  refine ⟨h1, ?_⟩
  unfold find_function_start
  simp only [h1]

/-- C4 witness: `[RET][CC][CC][prologue][NOPs]` queried from offset 9
resolves to 3 via tier 1. -/
theorem C4_witness :
    strat1 pe4w.data 9 (max pe4w.text_start (9 - 2048)) 9 (9 - 1) = some 3 ∧
    find_function_start pe4w 9 2048 = some 3 :=
  C4_theorem pe4w 9 3 2048 (by decide) (by decide) (by decide) (by decide)
    (by decide) (by decide)

/-- C4 counterexample: on the claimed layout `[RET][NOP][NOP][prologue]...`
tier 1 (and tier 2) return nothing — the resolution to the prologue start
happens via tier 3, so the claim's tier-1 mechanism is wrong (the backward
scan also never examines the first byte of the window, where the RET sits). -/
theorem C4_counterexample :
    strat1 pe4c.data 9 (max pe4c.text_start (9 - 2048)) 9 (9 - 1) = none ∧
    strat2 pe4c.data 9 (max pe4c.text_start (9 - 2048)) 9 (9 - 1) = none ∧
    strat3 pe4c.data 9 (max pe4c.text_start (9 - 2048)) 9 (9 - 1) = some 3 ∧
    find_function_start pe4c 9 2048 = some 3 := by
  exact ⟨by decide, by decide, by decide, by decide⟩

/-- A REX-LEA hit is reported at the instruction start. -/
theorem xbREXLEA_val (pe : PEState) (td : List Nat) (tEnd sva i x : Nat)
    (h : xbREXLEA pe td tEnd sva i = some x) : x = pe.text_start + i := by
  unfold xbREXLEA at h
  split_ifs at h <;> simp_all

/-- A non-prefixed-LEA hit is reported at the instruction start. -/
theorem xbLEA_val (pe : PEState) (td : List Nat) (tEnd sva i x : Nat)
    (h : xbLEA pe td tEnd sva i = some x) : x = pe.text_start + i := by
  unfold xbLEA at h
  split_ifs at h <;> simp_all

/-- A MOV-load hit is reported at the instruction start. -/
theorem xbMOVload_val (pe : PEState) (td : List Nat) (tEnd sva i x : Nat)
    (h : xbMOVload pe td tEnd sva i = some x) : x = pe.text_start + i := by
  unfold xbMOVload at h
  split_ifs at h <;> simp_all

/-- A MOV-store hit is reported at the instruction start. -/
theorem xbMOVstore_val (pe : PEState) (td : List Nat) (tEnd sva i x : Nat)
    (h : xbMOVstore pe td tEnd sva i = some x) : x = pe.text_start + i := by
  unfold xbMOVstore at h
  split_ifs at h <;> simp_all

/-- A CMP hit is reported at the instruction start. -/
theorem xbCMP_val (pe : PEState) (td : List Nat) (tEnd sva i x : Nat)
    (h : xbCMP pe td tEnd sva i = some x) : x = pe.text_start + i := by
  unfold xbCMP at h
  split_ifs at h <;> simp_all

/-- Every hit of one scan iteration is the instruction start offset. -/
theorem xrefHitsAt_val (pe : PEState) (td : List Nat) (tEnd sva i x : Nat)
    (h : x ∈ xrefHitsAt pe td tEnd sva i) : x = pe.text_start + i := by
  unfold xrefHitsAt at h
  simp only [List.mem_append, Option.mem_toList, Option.mem_def] at h
  rcases h with ((((h | h) | h) | h) | h)
  · exact xbREXLEA_val pe td tEnd sva i x h
  · exact xbLEA_val pe td tEnd sva i x h
  · exact xbMOVload_val pe td tEnd sva i x h
  · exact xbMOVstore_val pe td tEnd sva i x h
  · exact xbCMP_val pe td tEnd sva i x h

/-- The REX-LEA branch needs second byte `0x8D`. -/
theorem xbREXLEA_none (pe : PEState) (td : List Nat) (tEnd sva i : Nat)
    (h : xb1 td tEnd i ≠ 141) : xbREXLEA pe td tEnd sva i = none := by
  unfold xbREXLEA
  rw [if_neg]
  rintro ⟨-, hc, -⟩
  exact h hc

/-- The non-prefixed LEA branch needs first byte `0x8D`. -/
theorem xbLEA_none (pe : PEState) (td : List Nat) (tEnd sva i : Nat)
    (h : td.getD i 0 ≠ 141) : xbLEA pe td tEnd sva i = none := by
  unfold xbLEA
  rw [if_neg]
  rintro ⟨hc, -⟩
  exact h hc

/-- The MOV-load branch needs second byte `0x8B`. -/
theorem xbMOVload_none (pe : PEState) (td : List Nat) (tEnd sva i : Nat)
    (h : xb1 td tEnd i ≠ 139) : xbMOVload pe td tEnd sva i = none := by
  unfold xbMOVload
  rw [if_neg]
  rintro ⟨-, hc, -⟩
  exact h hc

/-- The MOV-load branch needs a REX prefix byte. -/
theorem xbMOVload_noneb0 (pe : PEState) (td : List Nat) (tEnd sva i : Nat)
    (h : ¬(td.getD i 0 = 72 ∨ td.getD i 0 = 76)) : xbMOVload pe td tEnd sva i = none := by
  unfold xbMOVload
  rw [if_neg]
  rintro ⟨hc, -⟩
  exact h hc

/-- The MOV-store branch needs second byte `0x89`. -/
theorem xbMOVstore_none (pe : PEState) (td : List Nat) (tEnd sva i : Nat)
    (h : xb1 td tEnd i ≠ 137) : xbMOVstore pe td tEnd sva i = none := by
  unfold xbMOVstore
  rw [if_neg]
  rintro ⟨-, hc, -⟩
  exact h hc

/-- The MOV-store branch needs a REX prefix byte. -/
theorem xbMOVstore_noneb0 (pe : PEState) (td : List Nat) (tEnd sva i : Nat)
    (h : ¬(td.getD i 0 = 72 ∨ td.getD i 0 = 76)) : xbMOVstore pe td tEnd sva i = none := by
  unfold xbMOVstore
  rw [if_neg]
  rintro ⟨hc, -⟩
  exact h hc

/-- The CMP branch needs second byte `0x39`/`0x3B`. -/
theorem xbCMP_none (pe : PEState) (td : List Nat) (tEnd sva i : Nat)
    (h1 : xb1 td tEnd i ≠ 57) (h2 : xb1 td tEnd i ≠ 59) :
    xbCMP pe td tEnd sva i = none := by
  unfold xbCMP
  rw [if_neg]
  rintro ⟨-, hc, -⟩
  rcases hc with hc | hc
  · exact h1 hc
  · exact h2 hc

/-- The CMP branch needs first byte `0x48`. -/
theorem xbCMP_noneb0 (pe : PEState) (td : List Nat) (tEnd sva i : Nat)
    (h : td.getD i 0 ≠ 72) : xbCMP pe td tEnd sva i = none := by
  unfold xbCMP
  rw [if_neg]
  rintro ⟨hc, -⟩
  exact h hc

/-- The REX-LEA branch needs a REX prefix byte. -/
theorem xbREXLEA_noneb0 (pe : PEState) (td : List Nat) (tEnd sva i : Nat)
    (h : ¬(td.getD i 0 = 72 ∨ td.getD i 0 = 76)) : xbREXLEA pe td tEnd sva i = none := by
  unfold xbREXLEA
  rw [if_neg]
  rintro ⟨hc, -⟩
  exact h hc

/-- At most one of the five encoding branches fires per scan position (their
leading-byte conditions are mutually exclusive). -/
theorem xrefHitsAt_len (pe : PEState) (td : List Nat) (tEnd sva i : Nat) :
    (xrefHitsAt pe td tEnd sva i).length ≤ 1 := by
  unfold xrefHitsAt
  by_cases hb0 : td.getD i 0 = 141
  · rw [xbREXLEA_noneb0 pe td tEnd sva i (by omega),
      xbMOVload_noneb0 pe td tEnd sva i (by omega),
      xbMOVstore_noneb0 pe td tEnd sva i (by omega),
      xbCMP_noneb0 pe td tEnd sva i (by omega)]
    cases xbLEA pe td tEnd sva i <;> simp
  · rw [xbLEA_none pe td tEnd sva i hb0]
    by_cases h1 : xb1 td tEnd i = 141
    · rw [xbMOVload_none pe td tEnd sva i (by omega),
        xbMOVstore_none pe td tEnd sva i (by omega),
        xbCMP_none pe td tEnd sva i (by omega) (by omega)]
      cases xbREXLEA pe td tEnd sva i <;> simp
    · rw [xbREXLEA_none pe td tEnd sva i h1]
      by_cases h2 : xb1 td tEnd i = 139
      · rw [xbMOVstore_none pe td tEnd sva i (by omega),
          xbCMP_none pe td tEnd sva i (by omega) (by omega)]
        cases xbMOVload pe td tEnd sva i <;> simp
      · rw [xbMOVload_none pe td tEnd sva i h2]
        by_cases h3 : xb1 td tEnd i = 137
        · rw [xbCMP_none pe td tEnd sva i (by omega) (by omega)]
          cases xbMOVstore pe td tEnd sva i <;> simp
        · rw [xbMOVstore_none pe td tEnd sva i h3]
          cases xbCMP pe td tEnd sva i <;> simp

/-- A scan that contributes at most one hit per position, at value
`base + position`, produces a strictly increasing list. -/
theorem flatMap_range_sorted (f : Nat → List Nat) (c : Nat)
    (hval : ∀ i, ∀ x ∈ f i, x = c + i) (hlen : ∀ i, (f i).length ≤ 1) :
    ∀ n, ((List.range n).flatMap f).Pairwise (· < ·) := by
  intro n
  induction n with
  | zero => simp
  | succ m ih =>
    rw [List.range_succ, List.flatMap_append]
    apply List.pairwise_append.mpr
    refine ⟨ih, ?_, ?_⟩
    · simp only [List.flatMap_cons, List.flatMap_nil, List.append_nil]
      cases hfm : f m with
      | nil => simp
      | cons a l =>
        have hl := hlen m
        rw [hfm] at hl
        simp at hl
        rw [hl]
        simp
    · intro x hx y hy
      obtain ⟨i, hi, hxi⟩ := List.mem_flatMap.mp hx
      rw [List.mem_range] at hi
      simp only [List.flatMap_cons, List.flatMap_nil, List.append_nil] at hy
      rw [hval i x hxi, hval m y hy]
      omega

/-- The scan of `find_string_xrefs` in mapped form. -/
theorem find_string_xrefs_eq (pe : PEState) (soff srva : Nat)
    (h : offset_to_rva pe soff = some srva) :
    find_string_xrefs pe soff =
      (List.range (((pe.data.drop pe.text_start).take pe.text_size).length - 7)).flatMap
        (fun i => xrefHitsAt pe ((pe.data.drop pe.text_start).take pe.text_size)
          (((pe.data.drop pe.text_start).take pe.text_size).length - 7)
          (pe.base + srva) i) := by
  unfold find_string_xrefs
  rw [h]

/-- An unmapped string offset scans to the empty list. -/
theorem find_string_xrefs_unmapped (pe : PEState) (soff : Nat)
    (h : offset_to_rva pe soff = none) : find_string_xrefs pe soff = [] := by
  unfold find_string_xrefs
  rw [h]

/-- C10 (confirmed): the cross-reference list is strictly increasing (hence
duplicate-free), every returned value is a file offset inside the `.text`
section's file range, and an empty or absent code section yields the empty
list rather than an error. -/
theorem C10_theorem (pe : PEState) (soff : Nat) :
    (find_string_xrefs pe soff).Pairwise (· < ·) ∧
    (∀ x ∈ find_string_xrefs pe soff,
      pe.text_start ≤ x ∧ x < pe.text_start + pe.text_size) ∧
    (pe.text_size = 0 → find_string_xrefs pe soff = []) := by
  cases ho : offset_to_rva pe soff with
  | none =>
    rw [find_string_xrefs_unmapped pe soff ho]
    simp
  | some srva =>
    have he := find_string_xrefs_eq pe soff srva ho
    rw [he]
    refine ⟨?_, ?_, ?_⟩
    · exact flatMap_range_sorted _ pe.text_start
        (fun i x hx => xrefHitsAt_val _ _ _ _ _ _ hx)
        (fun i => xrefHitsAt_len _ _ _ _ _) _
    · intro x hx
      obtain ⟨i, hi, hxi⟩ := List.mem_flatMap.mp hx
      rw [List.mem_range] at hi
      have hv := xrefHitsAt_val _ _ _ _ _ _ hxi
      subst hv
      have htdlen : ((pe.data.drop pe.text_start).take pe.text_size).length ≤ pe.text_size := by
        simp
      exact ⟨by omega, by omega⟩
    · intro hz
      have hlen : ((pe.data.drop pe.text_start).take pe.text_size).length = 0 := by
        rw [hz]; simp
      rw [hlen]
      simp

/-- C1 (amended): for every position `i` within the scanner's guarded bound
(`i` below `len(text_data) - 7` and, per branch, `i + 6` — or `i + 5` for the
non-prefixed LEA — below that bound, guards the source imposes beyond the
instruction actually fitting) at which a recognized encoding matches with
computed target equal to the queried address, the returned list contains
exactly one reference at the instruction start; and every returned entry
arises from such a position, so no entry's computed target differs.
Recognized instructions ending within 7 bytes of the region end are silently
skipped (see the counterexample). -/
theorem C1_theorem (pe : PEState) (soff srva : Nat)
    (h : offset_to_rva pe soff = some srva) :
    (∀ i < ((pe.data.drop pe.text_start).take pe.text_size).length - 7,
      xrefHitsAt pe ((pe.data.drop pe.text_start).take pe.text_size)
          (((pe.data.drop pe.text_start).take pe.text_size).length - 7)
          (pe.base + srva) i ≠ [] →
        (find_string_xrefs pe soff).count (pe.text_start + i) = 1) ∧
    (∀ x ∈ find_string_xrefs pe soff,
      ∃ i, i < ((pe.data.drop pe.text_start).take pe.text_size).length - 7 ∧
        x = pe.text_start + i ∧
        xrefHitsAt pe ((pe.data.drop pe.text_start).take pe.text_size)
          (((pe.data.drop pe.text_start).take pe.text_size).length - 7)
          (pe.base + srva) i ≠ []) := by
  have he := find_string_xrefs_eq pe soff srva h
  constructor
  · intro i hi hne
    have hmem : pe.text_start + i ∈ find_string_xrefs pe soff := by
      rw [he]
      apply List.mem_flatMap.mpr
      refine ⟨i, List.mem_range.mpr hi, ?_⟩
      cases hh : xrefHitsAt pe ((pe.data.drop pe.text_start).take pe.text_size)
          (((pe.data.drop pe.text_start).take pe.text_size).length - 7)
          (pe.base + srva) i with
      | nil => exact absurd hh hne
      | cons a l =>
        have hva := xrefHitsAt_val pe _ _ _ i a (by rw [hh]; exact List.mem_cons_self a l)
        rw [← hva]
        exact List.mem_cons_self a l
    have hnd : (find_string_xrefs pe soff).Nodup := by
      rw [he]
      exact (flatMap_range_sorted _ pe.text_start
        (fun i x hx => xrefHitsAt_val _ _ _ _ _ _ hx)
        (fun i => xrefHitsAt_len _ _ _ _ _) _).imp (fun hlt => Nat.ne_of_lt hlt)
    exact List.count_eq_one_of_mem hnd hmem
  · intro x hx
    rw [he] at hx
    obtain ⟨i, hi, hxi⟩ := List.mem_flatMap.mp hx
    rw [List.mem_range] at hi
    refine ⟨i, hi, xrefHitsAt_val _ _ _ _ _ _ hxi, ?_⟩
    intro hnil
    rw [hnil] at hxi
    cases hxi

/-- C1 witness: the single REX MOV load in `pe1w` is counted exactly once. -/
theorem C1_witness :
    (find_string_xrefs pe1w 13).count (pe1w.text_start + 0) = 1 ∧
    find_string_xrefs pe1w 13 = [0] :=
  ⟨(C1_theorem pe1w 13 4109 (by decide)).1 0 (by decide) (by decide), by decide⟩

/-- C1 counterexample: `pe1c` carries a recognized REX MOV load at region
position 0 whose computed target equals the queried string address, yet the
scan returns the empty list, because the instruction ends within 7 bytes of
the region end and the guard `i + 6 < text_end` (with
`text_end = len - 7`) excludes it. -/
theorem C1_counterexample :
    find_string_xrefs pe1c 12 = [] ∧
    offset_to_rva pe1c 12 = some 4108 ∧
    (((pe1c.data.drop pe1c.text_start).take pe1c.text_size).getD 0 0 = 72 ∧
     ((pe1c.data.drop pe1c.text_start).take pe1c.text_size).getD 1 0 = 139 ∧
     ((pe1c.data.drop pe1c.text_start).take pe1c.text_size).getD 2 0 / 64 % 4 = 0 ∧
     ((pe1c.data.drop pe1c.text_start).take pe1c.text_size).getD 2 0 % 8 = 5) ∧
    ((pe1c.base + pe1c.text_rva + 0 : Nat) : Int) + 7 +
      i32at ((pe1c.data.drop pe1c.text_start).take pe1c.text_size) 3 =
      ((pe1c.base + 4108 : Nat) : Int) := by
  refine ⟨by decide, by decide, by decide, by decide⟩

/-- C10 witness: the one-hit scan of `pe1w` is sorted and in range. -/
theorem C10_witness :
    find_string_xrefs pe1w 13 = [0] ∧
    (find_string_xrefs pe1w 13).Pairwise (· < ·) ∧
    (pe1w.text_start ≤ 0 ∧ 0 < pe1w.text_start + pe1w.text_size) := by
  have h := C10_theorem pe1w 13
  exact ⟨by decide, h.1, h.2.1 0 (by decide)⟩
